import Mathlib

/-!
Shallow embedding of `physicsvoe/framewisevoe.py` (class `FramewiseVOE`,
the violation taxonomy and the heatmap aggregation), together with proofs
of the behavioural claims about the frame-wise violation engine.

Modelling conventions:
* Frame times and object ids are natural numbers; 3-D positions are an
  abstract type `Pos`; the engine never inspects a position except through
  the external distance function (a parameter `dist` standing for
  `torch.dist`), whose scalar result type `R` is likewise abstract: the
  engine only compares distances with `dist_thresh`, so `R` merely carries
  a linear order (the floating-point values themselves are external).
* The Python `dict` `frame_history` is an association list in insertion
  order; the Python `set` `all_ids` is a `Finset ℕ` (the set is only ever
  enumerated, with unspecified order, so we enumerate it sorted).
* The external predictor `self.net` (class `ThorNLLS`, not part of the
  embedded module) is a parameter `net` taking the filtered training
  triples and the query times/ids and returning predicted positions.
* A failing `assert` (Python `AssertionError`) is modelled by an
  `Except String Unit` flag paired with the post-state; the assert fires
  before any mutation, so the failing branch returns the state unchanged.
-/

namespace FwVOE

/-- One history triple `(time, object_id, position)` as gathered by
`FramewiseVOE._get_inputs`. -/
abbrev Triple (Pos : Type) := ℕ × ℕ × Pos

/-- The state of a `FramewiseVOE` object: `frame_history` maps each recorded
time to the `(ids, pos, present)` lists passed to `record_obs` (association
list in insertion order, like a Python dict), `all_ids` is the registry of
every id ever recorded, and the three scalar parameters are fixed at
construction. -/
structure State (Pos R : Type) where
  frame_history : List (ℕ × (List ℕ × List Pos × List Bool))
  all_ids : Finset ℕ
  dist_thresh : R
  min_hist_count : ℕ
  max_hist_count : ℕ

/-- `zip(a, b, c)` of Python: truncates to the shortest input. -/
def zip3 {α β γ : Type} (a : List α) (b : List β) (c : List γ) : List (α × β × γ) :=
  a.zip (b.zip c)

/-- `FramewiseVOE.record_obs(time, ids, pos, present)`:
`assert time not in self.frame_history`, then store the frame record and
union the ids into the registry.  The first component is `.error` when the
assert fires; the second component is the post-state (unchanged on error,
since the assert precedes both assignments). -/
def record_obs {Pos R : Type} (s : State Pos R) (time : ℕ) (ids : List ℕ)
    (pos : List Pos) (present : List Bool) : Except String Unit × State Pos R :=
  if time ∈ s.frame_history.map (·.1) then
    (.error "AssertionError", s)
  else
    (.ok (), { s with
      frame_history := s.frame_history ++ [(time, (ids, pos, present))]
      all_ids := s.all_ids ∪ ids.toFinset })

/-- The raw `(time, id, pos)` triples gathered by the first loop of
`FramewiseVOE._get_inputs`: every `present=true` entry of every recorded
frame, in history insertion order, each frame's entries zipped positionally. -/
def getInputsRaw {Pos R : Type} (s : State Pos R) : List (Triple Pos) :=
  s.frame_history.flatMap (fun fr =>
    (zip3 fr.2.1 fr.2.2.1 fr.2.2.2).filterMap (fun e =>
      if e.2.2 then some (fr.1, e.1, e.2.1) else none))

/-- The eligibility map `obj_valid` of `FramewiseVOE._filter_inputs`:
an id is valid when it occurs at least `min_hist_count` times among the
gathered (present) triples. -/
def objValid {Pos : Type} (minc : ℕ) (l : List (Triple Pos)) (i : ℕ) : Bool :=
  decide (minc ≤ l.countP (fun x => x.2.1 == i))

/-- Stable insertion of a triple into a list, placing it before the first
element whose time is not larger — the building block of the embedded
`sorted(comb, key=lambda x: x[0], reverse=True)` (Python sort is stable). -/
def insertTimeDesc {Pos : Type} (x : Triple Pos) : List (Triple Pos) → List (Triple Pos)
  | [] => [x]
  | y :: ys => if y.1 ≤ x.1 then x :: y :: ys else y :: insertTimeDesc x ys

/-- Stable sort of the gathered triples, latest time first, ties kept in
original order: `sorted(comb, key=lambda x: x[0], reverse=True)`. -/
def sortTimeDesc {Pos : Type} : List (Triple Pos) → List (Triple Pos)
  | [] => []
  | x :: xs => insertTimeDesc x (sortTimeDesc xs)

/-- The admission walk of `FramewiseVOE._filter_inputs`: traverse the sorted
triples once, keeping a per-id counter `cnt` (the `obj_count` defaultdict);
admit a triple only while its id's counter is below `max_hist_count` and the
id is valid. -/
def filterWalk {Pos : Type} (maxc : ℕ) (valid : ℕ → Bool) :
    List (Triple Pos) → (ℕ → ℕ) → List (Triple Pos)
  | [], _ => []
  | x :: rest, cnt =>
    if cnt x.2.1 < maxc ∧ valid x.2.1 then
      x :: filterWalk maxc valid rest (fun j => if j = x.2.1 then cnt j + 1 else cnt j)
    else
      filterWalk maxc valid rest cnt

/-- `FramewiseVOE._filter_inputs` on the zipped triple list (the source
threads three equal-length parallel lists `time_l, id_l, pos_l`; we keep
them zipped throughout).  Empty input is returned unchanged, mirroring the
`if not time_l` early return. -/
def filterInputs {Pos : Type} (minc maxc : ℕ) (l : List (Triple Pos)) : List (Triple Pos) :=
  if l.isEmpty then l
  else filterWalk maxc (objValid minc l) (sortTimeDesc l) (fun _ => 0)

/-- `FramewiseVOE._get_inputs`: gather the present triples, filter them, and
return `None` when nothing survives (`if len(time_l) == 0`).  The tensor
packaging (`unsqueeze`, the all-ones `obj_mask`) carries no information and
is dropped. -/
def getInputs {Pos R : Type} (s : State Pos R) : Option (List (Triple Pos)) :=
  let f := filterInputs s.min_hist_count s.max_hist_count (getInputsRaw s)
  if f.isEmpty then none else some f

/-- The enumeration `list(self.all_ids)` used by `FramewiseVOE._get_targets`
(Python set iteration order is unspecified; we enumerate ascending, which
is one admissible order — no claim depends on which order is produced,
only on the enumeration being exactly the registry without repetition). -/
def registryList {Pos R : Type} (s : State Pos R) : List ℕ :=
  (List.range (s.all_ids.sup id + 1)).filter (fun i => decide (i ∈ s.all_ids))

/-- `FramewiseVOE._get_targets(time)`: the query times (the single query
time repeated) and the query ids (every id in the registry). -/
def getTargets {Pos R : Type} (s : State Pos R) (time : ℕ) : List ℕ × List ℕ :=
  ((registryList s).map (fun _ => time), registryList s)

/-- `FramewiseVOE.predict(time)`, instrumented with the number of calls made
to the external predictor `net` (the second component): `None` (and no
predictor call) when `_get_inputs` yields nothing, otherwise the query ids,
the predictor's positions, and the relevance mask `[i in obj_ids for i in
ids_l]` where `obj_ids` are the filtered training ids. -/
def predictCount {Pos R : Type}
    (net : List (Triple Pos) → List ℕ → List ℕ → List Pos)
    (s : State Pos R) (time : ℕ) :
    Option (List ℕ × List Pos × List Bool) × ℕ :=
  match getInputs s with
  | none => (none, 0)
  | some tr =>
    let tgt := getTargets s time
    let predL := net tr tgt.1 tgt.2
    let maskL := tgt.2.map (fun i => decide (i ∈ tr.map (·.2.1)))
    (some (tgt.2, predL, maskL), 1)

/-- `FramewiseVOE.predict(time)` (result only). -/
def predict {Pos R : Type} (net : List (Triple Pos) → List ℕ → List ℕ → List Pos)
    (s : State Pos R) (time : ℕ) : Option (List ℕ × List Pos × List Bool) :=
  (predictCount net s time).1

/-- The violation taxonomy: `PositionViolation(object_id, pred_pos,
actual_pos)` and `PresenceViolation(object_id, pred_pos)`. -/
inductive Violation (Pos : Type) where
  | position (object_id : ℕ) (pred_pos actual_pos : Pos)
  | presence (object_id : ℕ) (pred_pos : Pos)
deriving DecidableEq

/-- The `object_id` attribute shared by both violation variants. -/
def Violation.objId {Pos : Type} : Violation Pos → ℕ
  | .position i _ _ => i
  | .presence i _ => i

/-- Recognizer: a `PositionViolation` for object `i`. -/
def Violation.isPositionFor {Pos : Type} (i : ℕ) : Violation Pos → Bool
  | .position j _ _ => j == i
  | .presence _ _ => false

/-- Recognizer: a `PresenceViolation` for object `i`. -/
def Violation.isPresenceFor {Pos : Type} (i : ℕ) : Violation Pos → Bool
  | .position _ _ _ => false
  | .presence j _ => j == i

/-- The body of the per-prediction loop of `FramewiseVOE.detect`: skip when
the relevance mask is false; when the id is among `actual_ids`, look up the
actual position at `actual_ids.index(pred_id)` and emit a
`PositionViolation` exactly when `torch.dist(actual_pos, pred_pos) >
dist_thresh`; otherwise emit a `PresenceViolation`.  (Python would raise
`IndexError` were `actual_poss` shorter than the found index; the
polymorphic embedding totalizes that lookup with a default, and every claim
about `detect` is stated for aligned actual lists.) -/
def checkOne {Pos R : Type} [Inhabited Pos] [LinearOrder R] (dist : Pos → Pos → R) (thresh : R)
    (actualPoss : List Pos) (actualIds : List ℕ) (e : Pos × ℕ × Bool) :
    Option (Violation Pos) :=
  if e.2.2 = false then none
  else if e.2.1 ∈ actualIds then
    (if dist (actualPoss.getD (actualIds.indexOf e.2.1) default) e.1 > thresh
     then some (.position e.2.1 e.1 (actualPoss.getD (actualIds.indexOf e.2.1) default))
     else none)
  else some (.presence e.2.1 e.1)

/-- `FramewiseVOE.detect(time, actual_poss, actual_ids)`, instrumented with
the predictor call count: `None` when `predict` returns `None`, otherwise
the violations collected over `zip(pred_poss, pred_ids, pred_masks)` in
order. -/
def detectCount {Pos R : Type} [Inhabited Pos] [LinearOrder R]
    (dist : Pos → Pos → R)
    (net : List (Triple Pos) → List ℕ → List ℕ → List Pos)
    (s : State Pos R) (time : ℕ) (actualPoss : List Pos) (actualIds : List ℕ) :
    Option (List (Violation Pos)) × ℕ :=
  match predictCount net s time with
  | (none, n) => (none, n)
  | (some pi, n) =>
    (some ((zip3 pi.2.1 pi.1 pi.2.2).filterMap
      (checkOne dist s.dist_thresh actualPoss actualIds)), n)

/-- `FramewiseVOE.detect` (result only). -/
def detect {Pos R : Type} [Inhabited Pos] [LinearOrder R]
    (dist : Pos → Pos → R)
    (net : List (Triple Pos) → List ℕ → List ℕ → List Pos)
    (s : State Pos R) (time : ℕ) (actualPoss : List Pos) (actualIds : List ℕ) :
    Option (List (Violation Pos)) :=
  (detectCount dist net s time actualPoss actualIds).1

/-- `FramewiseVOE.detect` with the post-state made explicit.  The method
(and the helpers `predict`, `_get_inputs`, `_filter_inputs`, `_get_targets`
it calls) only reads `self`: it never assigns an attribute, `sorted` copies
its argument, and `list(self.all_ids)` copies the set — so the embedded
post-state is the input state. -/
def detectS {Pos R : Type} [Inhabited Pos] [LinearOrder R]
    (dist : Pos → Pos → R)
    (net : List (Triple Pos) → List ℕ → List ℕ → List Pos)
    (s : State Pos R) (time : ℕ) (actualPoss : List Pos) (actualIds : List ℕ) :
    Option (List (Violation Pos)) × State Pos R :=
  (detect dist net s time actualPoss actualIds, s)

/-- A single `record_obs` argument tuple `(time, ids, pos, present)`. -/
abbrev Call (Pos : Type) := ℕ × List ℕ × List Pos × List Bool

/-- Run one recorded call, keeping only the post-state (a failed assert
leaves the state as it was). -/
def recordStep {Pos R : Type} (s : State Pos R) (c : Call Pos) : State Pos R :=
  (record_obs s c.1 c.2.1 c.2.2.1 c.2.2.2).2

/-- Run a whole sequence of `record_obs` calls, keeping the post-state. -/
def recordAll {Pos R : Type} (s : State Pos R) (cs : List (Call Pos)) : State Pos R :=
  cs.foldl recordStep s

/-- Every call in the sequence succeeds (no assert fires) when run from `s`. -/
def recordAllOk {Pos R : Type} (s : State Pos R) : List (Call Pos) → Bool
  | [] => true
  | c :: cs =>
    (match (record_obs s c.1 c.2.1 c.2.2.1 c.2.2.2).1 with
      | .ok _ => true
      | .error _ => false)
    && recordAllOk (recordStep s c) cs

/-- The union of all ids appearing in a sequence of calls. -/
def callIds {Pos : Type} : List (Call Pos) → Finset ℕ
  | [] => ∅
  | c :: cs => c.2.1.toFinset ∪ callIds cs

/-- `PositionViolation.fill_heatmap` / `PresenceViolation.fill_heatmap`,
applied to the running Python value of `hmap` (`some h` a boolean buffer,
`none` the Python `None`).  `PositionViolation` returns
`hmap + (obj_mask == self.object_id)` (numpy's elementwise boolean add is
OR) and raises `TypeError` when `hmap` is `None`; `PresenceViolation`'s
body is `pass`, so the call returns `None` whatever the buffer was. -/
def fillHeatmap {Pos : Type} (v : Violation Pos) (hmap : Option (List (List Bool)))
    (objMask : List (List ℕ)) : Except String (Option (List (List Bool))) :=
  match v, hmap with
  | .position i _ _, some h =>
    .ok (some (h.zipWith (fun hrow mrow => hrow.zipWith (fun b m => b || (m == i)) mrow) objMask))
  | .position _ _ _, none => .error "TypeError"
  | .presence _ _, _ => .ok none

/-- `np.zeros_like(obj_mask, dtype=bool)`. -/
def zerosLike (objMask : List (List ℕ)) : List (List Bool) :=
  objMask.map (fun row => row.map (fun _ => false))

/-- The loop of `make_voe_heatmap`: `hmap = v.fill_heatmap(hmap, obj_mask)`
for each violation in order, propagating a raised `TypeError`. -/
def fillFold {Pos : Type} : List (Violation Pos) → Option (List (List Bool)) →
    List (List ℕ) → Except String (Option (List (List Bool)))
  | [], h, _ => .ok h
  | v :: vs, h, m =>
    match fillHeatmap v h m with
    | .error e => .error e
    | .ok h2 => fillFold vs h2 m

/-- `make_voe_heatmap(viols, obj_mask)`: start from an all-false buffer of
the mask's shape, replace an absent (`None`) violation list by `[]`
(`viols = viols or []`), and fold `fill_heatmap` over the violations. -/
def make_voe_heatmap {Pos : Type} (viols : Option (List (Violation Pos)))
    (objMask : List (List ℕ)) : Except String (Option (List (List Bool))) :=
  fillFold (viols.getD []) (some (zerosLike objMask)) objMask

/-- An upper bound on the times occurring in a triple list. -/
def timesBound {Pos : Type} (l : List (Triple Pos)) : ℕ :=
  l.foldr (fun x acc => max x.1 acc) 0

/-- Modelled from the spec: the History Filter orders candidate
observations "by time descending (latest-first) … ties in time are broken
by original insertion order".  This is stated directly: enumerate the
possible times from the largest down and, for each time, keep that time's
observations in their original order. -/
def specSortTimeDesc {Pos : Type} (l : List (Triple Pos)) : List (Triple Pos) :=
  (List.range (timesBound l + 1)).reverse.flatMap
    (fun t => l.filter (fun x => x.1 == t))

/-! ### Basic facts about `record_obs` sequences -/

theorem recordStep_ids_mono {Pos R : Type} (s : State Pos R) (c : Call Pos) :
    s.all_ids ⊆ (recordStep s c).all_ids := by
  unfold recordStep record_obs
  split
  · exact fun a ha => ha
  · exact fun a ha => Finset.mem_union_left _ ha

theorem recordAll_append_one {Pos R : Type} (s : State Pos R) (cs : List (Call Pos))
    (c : Call Pos) : recordAll s (cs ++ [c]) = recordStep (recordAll s cs) c := by
  unfold recordAll
  rw [List.foldl_append]
  rfl

theorem recordAll_ids_union {Pos R : Type} (s : State Pos R) (cs : List (Call Pos))
    (h : recordAllOk s cs = true) :
    (recordAll s cs).all_ids = s.all_ids ∪ callIds cs := by
  induction cs generalizing s with
  | nil => simp [recordAll, callIds]
  | cons c cs ih =>
    unfold recordAllOk at h
    rw [Bool.and_eq_true] at h
    have hok := h.1
    have hfresh : c.1 ∉ s.frame_history.map (·.1) := by
      intro hmem
      rw [record_obs, if_pos hmem] at hok
      simp at hok
    have hstep : (recordStep s c).all_ids = s.all_ids ∪ c.2.1.toFinset := by
      unfold recordStep record_obs
      rw [if_neg hfresh]
    calc (recordAll s (c :: cs)).all_ids
        = (recordAll (recordStep s c) cs).all_ids := rfl
      _ = (recordStep s c).all_ids ∪ callIds cs := ih _ h.2
      _ = (s.all_ids ∪ c.2.1.toFinset) ∪ callIds cs := by rw [hstep]
      _ = s.all_ids ∪ (c.2.1.toFinset ∪ callIds cs) := Finset.union_assoc _ _ _
      _ = s.all_ids ∪ callIds (c :: cs) := rfl

/-! ### The embedded sort is the stable descending sort -/

theorem mem_insertTimeDesc {Pos : Type} (x y : Triple Pos) (s : List (Triple Pos)) :
    y ∈ insertTimeDesc x s ↔ y = x ∨ y ∈ s := by
  induction s with
  | nil => simp [insertTimeDesc]
  | cons z zs ih =>
    unfold insertTimeDesc
    split
    · simp
    · simp only [List.mem_cons, ih]
      tauto

theorem insertTimeDesc_pairwise {Pos : Type} (x : Triple Pos) (s : List (Triple Pos))
    (hs : s.Pairwise (fun a b => b.1 ≤ a.1)) :
    (insertTimeDesc x s).Pairwise (fun a b => b.1 ≤ a.1) := by
  induction s with
  | nil => simp [insertTimeDesc]
  | cons y ys ih =>
    rw [List.pairwise_cons] at hs
    unfold insertTimeDesc
    split
    · rename_i hle
      rw [List.pairwise_cons]
      refine ⟨fun z hz => ?_, List.pairwise_cons.mpr hs⟩
      rcases List.mem_cons.mp hz with h | h
      · exact h ▸ hle
      · exact le_trans (hs.1 z h) hle
    · rename_i hgt
      rw [List.pairwise_cons]
      refine ⟨fun z hz => ?_, ih hs.2⟩
      rcases (mem_insertTimeDesc x z ys).mp hz with h | h
      · exact h ▸ le_of_lt (lt_of_not_le hgt)
      · exact hs.1 z h

theorem sortTimeDesc_pairwise {Pos : Type} (l : List (Triple Pos)) :
    (sortTimeDesc l).Pairwise (fun a b => b.1 ≤ a.1) := by
  induction l with
  | nil => simp [sortTimeDesc]
  | cons x xs ih => exact insertTimeDesc_pairwise x _ ih

theorem insertTimeDesc_filter_pos {Pos : Type} (x : Triple Pos) (s : List (Triple Pos))
    (t : ℕ) (hx : x.1 = t) :
    (insertTimeDesc x s).filter (fun z => z.1 == t)
      = x :: s.filter (fun z => z.1 == t) := by
  induction s with
  | nil => simp [insertTimeDesc, hx]
  | cons y ys ih =>
    unfold insertTimeDesc
    split
    · simp [List.filter_cons, hx]
    · rename_i hgt
      have hy : (y.1 == t) = false := by
        have : t < y.1 := hx ▸ lt_of_not_le hgt
        simp [Nat.ne_of_gt this]
      rw [List.filter_cons_of_neg (by simp [hy]), ih, List.filter_cons_of_neg (by simp [hy])]

theorem insertTimeDesc_filter_neg {Pos : Type} (x : Triple Pos) (s : List (Triple Pos))
    (t : ℕ) (hx : x.1 ≠ t) :
    (insertTimeDesc x s).filter (fun z => z.1 == t) = s.filter (fun z => z.1 == t) := by
  induction s with
  | nil => simp [insertTimeDesc, hx]
  | cons y ys ih =>
    unfold insertTimeDesc
    split
    · rw [List.filter_cons_of_neg (by simp [hx])]
    · rw [List.filter_cons, List.filter_cons, ih]

theorem sortTimeDesc_filter_time {Pos : Type} (l : List (Triple Pos)) (t : ℕ) :
    (sortTimeDesc l).filter (fun z => z.1 == t) = l.filter (fun z => z.1 == t) := by
  induction l with
  | nil => rfl
  | cons x xs ih =>
    show (insertTimeDesc x (sortTimeDesc xs)).filter _ = _
    by_cases hx : x.1 = t
    · rw [insertTimeDesc_filter_pos x _ t hx, ih, List.filter_cons_of_pos (by simp [hx])]
    · rw [insertTimeDesc_filter_neg x _ t hx, ih, List.filter_cons_of_neg (by simp [hx])]

theorem timesBound_ge {Pos : Type} (l : List (Triple Pos)) :
    ∀ x ∈ l, x.1 ≤ timesBound l := by
  induction l with
  | nil => simp
  | cons y ys ih =>
    intro x hx
    rcases List.mem_cons.mp hx with h | h
    · exact h ▸ le_max_left _ _
    · exact le_trans (ih x h) (le_max_right _ _)

theorem flatMap_blocks_pairwise {Pos : Type} (l : List (Triple Pos)) (ts : List ℕ)
    (hts : ts.Pairwise (fun a b => b < a)) :
    (ts.flatMap (fun t => l.filter (fun x => x.1 == t))).Pairwise
      (fun a b => b.1 ≤ a.1) := by
  induction ts with
  | nil => simp
  | cons t ts ih =>
    rw [List.pairwise_cons] at hts
    rw [List.flatMap_cons]
    refine List.pairwise_append.mpr ⟨?_, ih hts.2, ?_⟩
    · refine List.pairwise_of_forall_mem_list (fun a ha b hb => ?_)
      have ha1 : a.1 = t := by simpa using (List.mem_filter.mp ha).2
      have hb1 : b.1 = t := by simpa using (List.mem_filter.mp hb).2
      rw [ha1, hb1]
    · intro a ha b hb
      have ha1 : a.1 = t := by simpa using (List.mem_filter.mp ha).2
      obtain ⟨u, hu, hbu⟩ := List.mem_flatMap.mp hb
      have hb1 : b.1 = u := by simpa using (List.mem_filter.mp hbu).2
      rw [ha1, hb1]
      exact le_of_lt (hts.1 u hu)

theorem specSortTimeDesc_pairwise {Pos : Type} (l : List (Triple Pos)) :
    (specSortTimeDesc l).Pairwise (fun a b => b.1 ≤ a.1) := by
  refine flatMap_blocks_pairwise l _ ?_
  rw [List.pairwise_reverse]
  exact List.pairwise_lt_range _

theorem flatMap_filter {α β : Type} (ts : List α) (f : α → List β) (p : β → Bool) :
    (ts.flatMap f).filter p = ts.flatMap (fun t => (f t).filter p) := by
  induction ts with
  | nil => rfl
  | cons t ts ih => rw [List.flatMap_cons, List.flatMap_cons, List.filter_append, ih]

theorem flatMap_if_single {γ : Type} (ts : List ℕ) (hnd : ts.Nodup) (t : ℕ)
    (X : List γ) :
    ts.flatMap (fun u => if u = t then X else []) = if t ∈ ts then X else [] := by
  induction ts with
  | nil => simp
  | cons a ts ih =>
    rw [List.nodup_cons] at hnd
    rw [List.flatMap_cons, ih hnd.2]
    by_cases ha : a = t
    · subst ha
      simp [hnd.1]
    · simp [ha, Ne.symm ha]

theorem specSortTimeDesc_filter_time {Pos : Type} (l : List (Triple Pos)) (t : ℕ) :
    (specSortTimeDesc l).filter (fun z => z.1 == t) = l.filter (fun z => z.1 == t) := by
  unfold specSortTimeDesc
  rw [flatMap_filter]
  have hpt : (fun u => (l.filter (fun x => x.1 == u)).filter (fun z => z.1 == t))
      = fun u => if u = t then l.filter (fun z => z.1 == t) else [] := by
    funext u
    by_cases hu : u = t
    · subst hu
      rw [if_pos rfl, List.filter_filter]
      apply List.filter_congr
      intro x _
      simp
    · rw [if_neg hu, List.filter_eq_nil_iff]
      intro a ha
      have : a.1 = u := by simpa using (List.mem_filter.mp ha).2
      simp [this, hu]
  rw [hpt, flatMap_if_single _ (by simp [List.nodup_range]) t]
  by_cases hmem : t ∈ (List.range (timesBound l + 1)).reverse
  · rw [if_pos hmem]
  · rw [if_neg hmem, eq_comm, List.filter_eq_nil_iff]
    intro a ha
    have hle : a.1 ≤ timesBound l := timesBound_ge l a ha
    have : t ≠ a.1 := by
      intro h
      exact hmem (by simp [h, Nat.lt_succ_of_le hle])
    simp [Ne.symm this]

theorem sorted_filter_ext {Pos : Type} :
    ∀ (s1 s2 : List (Triple Pos)),
      s1.Pairwise (fun a b => b.1 ≤ a.1) → s2.Pairwise (fun a b => b.1 ≤ a.1) →
      (∀ t, s1.filter (fun x => x.1 == t) = s2.filter (fun x => x.1 == t)) →
      s1 = s2 := by
  intro s1
  induction s1 with
  | nil =>
    intro s2 _ _ hf
    cases s2 with
    | nil => rfl
    | cons y ys =>
      exfalso
      have := hf y.1
      rw [List.filter_nil, List.filter_cons_of_pos (by simp)] at this
      exact List.noConfusion this
  | cons x xs ih =>
    intro s2 h1 h2 hf
    cases s2 with
    | nil =>
      exfalso
      have := hf x.1
      rw [List.filter_nil, List.filter_cons_of_pos (by simp)] at this
      exact List.noConfusion this
    | cons y ys =>
      rw [List.pairwise_cons] at h1 h2
      have hyx : y.1 ≤ x.1 := by
        have hy : y ∈ (x :: xs).filter (fun z => z.1 == y.1) := by
          rw [hf y.1]
          rw [List.filter_cons_of_pos (by simp)]
          exact List.mem_cons_self y _
        rcases List.mem_cons.mp (List.mem_of_mem_filter hy) with h | h
        · exact h ▸ le_refl _
        · exact h1.1 y h
      have hxy : x.1 ≤ y.1 := by
        have hx : x ∈ (y :: ys).filter (fun z => z.1 == x.1) := by
          rw [← hf x.1]
          rw [List.filter_cons_of_pos (by simp)]
          exact List.mem_cons_self x _
        rcases List.mem_cons.mp (List.mem_of_mem_filter hx) with h | h
        · exact h ▸ le_refl _
        · exact h2.1 x h
      have hteq : y.1 = x.1 := le_antisymm hyx hxy
      have hhead := hf x.1
      rw [List.filter_cons_of_pos (by simp), List.filter_cons_of_pos (by simp [hteq])]
        at hhead
      have hx_eq : x = y := (List.cons.injEq _ _ _ _ ▸ hhead).1
      have htail : xs = ys := by
        refine ih ys h1.2 h2.2 (fun t => ?_)
        by_cases ht : t = x.1
        · subst ht
          exact (List.cons.injEq _ _ _ _ ▸ hhead).2
        · have := hf t
          rw [List.filter_cons_of_neg (by simp [Ne.symm ht]),
            List.filter_cons_of_neg (by simp [hteq, Ne.symm ht])] at this
          exact this
      rw [hx_eq, htail]

theorem sortTimeDesc_eq_spec {Pos : Type} (l : List (Triple Pos)) :
    sortTimeDesc l = specSortTimeDesc l :=
  sorted_filter_ext _ _ (sortTimeDesc_pairwise l) (specSortTimeDesc_pairwise l)
    (fun t => (sortTimeDesc_filter_time l t).trans
      (specSortTimeDesc_filter_time l t).symm)

/-! ### The admission walk keeps a per-id prefix of the sorted candidates -/

theorem filterWalk_filter {Pos : Type} (maxc : ℕ) (valid : ℕ → Bool) (i : ℕ) :
    ∀ (l : List (Triple Pos)) (cnt : ℕ → ℕ),
      (filterWalk maxc valid l cnt).filter (fun x => x.2.1 == i)
        = if valid i then (l.filter (fun x => x.2.1 == i)).take (maxc - cnt i)
          else [] := by
  intro l
  induction l with
  | nil =>
    intro cnt
    unfold filterWalk
    simp
  | cons x rest ih =>
    intro cnt
    unfold filterWalk
    by_cases hadm : cnt x.2.1 < maxc ∧ valid x.2.1 = true
    · rw [if_pos hadm]
      by_cases hj : x.2.1 = i
      · have hvalid : valid i = true := hj ▸ hadm.2
        have hlt : cnt i < maxc := hj ▸ hadm.1
        have hupd : (if i = x.2.1 then cnt i + 1 else cnt i) = cnt i + 1 :=
          if_pos hj.symm
        have hsub : maxc - cnt i = (maxc - (cnt i + 1)) + 1 := by omega
        rw [List.filter_cons_of_pos (by simp [hj]), ih, hupd, hvalid,
          if_pos rfl, if_pos rfl, List.filter_cons_of_pos (by simp [hj]),
          hsub, List.take_succ_cons]
      · rw [List.filter_cons_of_neg (by simp [hj]), ih,
          List.filter_cons_of_neg (by simp [hj])]
        have hupd : (if i = x.2.1 then cnt i + 1 else cnt i) = cnt i := by
          rw [if_neg (fun h => hj h.symm)]
        rw [hupd]
    · rw [if_neg hadm]
      by_cases hvalid : valid i = true
      · by_cases hj : x.2.1 = i
        · have hge : maxc ≤ cnt i := by
            rcases Nat.lt_or_ge (cnt x.2.1) maxc with h | h
            · exact absurd ⟨h, hj ▸ hvalid⟩ hadm
            · exact hj ▸ h
          rw [ih, if_pos hvalid, if_pos hvalid, Nat.sub_eq_zero_of_le hge,
            List.take_zero, List.take_zero]
        · rw [ih, List.filter_cons_of_neg (by simp [hj])]
      · rw [ih, if_neg hvalid, if_neg hvalid]

/-! ### Claim theorems: the History Filter -/

/-- C1: for any recorded history, the filtered training set holds at most
`max_hist_count` observations of any one object id, and none at all of an
id whose total number of `present=true` observations over the whole
history falls below `min_hist_count`. -/
theorem history_filter_cap {Pos R : Type} (s : State Pos R) (i : ℕ) :
    (filterInputs s.min_hist_count s.max_hist_count (getInputsRaw s)).countP
        (fun x => x.2.1 == i) ≤ s.max_hist_count
    ∧ ((getInputsRaw s).countP (fun x => x.2.1 == i) < s.min_hist_count →
        (filterInputs s.min_hist_count s.max_hist_count (getInputsRaw s)).countP
          (fun x => x.2.1 == i) = 0) := by
  unfold filterInputs
  by_cases hl : (getInputsRaw s).isEmpty
  · rw [List.isEmpty_iff] at hl
    simp [hl]
  · rw [if_neg hl]
    rw [List.countP_eq_length_filter, filterWalk_filter]
    constructor
    · split
      · exact le_trans (List.length_take_le _ _) (le_of_eq (Nat.sub_zero _))
      · exact Nat.zero_le _
    · intro hcount
      have hvalid : objValid s.min_hist_count (getInputsRaw s) i = false := by
        unfold objValid
        exact decide_eq_false (not_le_of_lt hcount)
      rw [hvalid]
      simp

/-- C1 witness: with `min_hist_count = 2`, `max_hist_count = 1`, an id seen
three times keeps one observation and an id seen once keeps none. -/
theorem history_filter_cap_witness :
    ((getInputsRaw (⟨[(0, ([1, 2], [10, 20], [true, true])), (1, ([1], [11], [true])),
          (2, ([1], [5], [true]))], {1, 2}, 1, 2, 1⟩ : State ℤ ℤ)).countP
        (fun x => x.2.1 == 2) < 2)
    ∧ (filterInputs 2 1 (getInputsRaw (⟨[(0, ([1, 2], [10, 20], [true, true])), (1, ([1], [11], [true])),
          (2, ([1], [5], [true]))], {1, 2}, 1, 2, 1⟩ : State ℤ ℤ))).countP
        (fun x => x.2.1 == 2) = 0 := by
  refine ⟨by decide, ?_⟩
  exact (history_filter_cap
    ⟨[(0, ([1, 2], [10, 20], [true, true])), (1, ([1], [11], [true])),
      (2, ([1], [5], [true]))], {1, 2}, 1, 2, 1⟩ 2).2 (by decide)

/-- C2: for an eligible id (total present count at least `min_hist_count`),
the filter's output restricted to that id is exactly the first
`max_hist_count` of its candidate observations ordered latest time first
with ties kept in original insertion order (`specSortTimeDesc`), so the
output is a deterministic function of the recorded history. -/
theorem history_filter_recency {Pos R : Type} (s : State Pos R) (i : ℕ)
    (helig : s.min_hist_count ≤ (getInputsRaw s).countP (fun x => x.2.1 == i)) :
    (filterInputs s.min_hist_count s.max_hist_count (getInputsRaw s)).filter
        (fun x => x.2.1 == i)
      = ((specSortTimeDesc (getInputsRaw s)).filter (fun x => x.2.1 == i)).take
          s.max_hist_count := by
  unfold filterInputs
  by_cases hl : (getInputsRaw s).isEmpty
  · rw [List.isEmpty_iff] at hl
    rw [hl]
    simp [specSortTimeDesc, timesBound]
  · rw [if_neg hl, filterWalk_filter,
      if_pos (show objValid s.min_hist_count (getInputsRaw s) i = true from
        decide_eq_true helig),
      Nat.sub_zero, sortTimeDesc_eq_spec]

/-- C2 witness: with `min_hist_count = 2`, `max_hist_count = 1`, id 1
(present at times 0, 1, 2) keeps exactly its single most recent
observation, the one at time 2. -/
theorem history_filter_recency_witness :
    (2 ≤ (getInputsRaw (⟨[(0, ([1, 2], [10, 20], [true, true])), (1, ([1], [11], [true])),
          (2, ([1], [5], [true]))], {1, 2}, 1, 2, 1⟩ : State ℤ ℤ)).countP
        (fun x => x.2.1 == 1))
    ∧ (filterInputs 2 1 (getInputsRaw (⟨[(0, ([1, 2], [10, 20], [true, true])), (1, ([1], [11], [true])),
          (2, ([1], [5], [true]))], {1, 2}, 1, 2, 1⟩ : State ℤ ℤ))).filter
        (fun x => x.2.1 == 1)
      = ((specSortTimeDesc (getInputsRaw (⟨[(0, ([1, 2], [10, 20], [true, true])), (1, ([1], [11], [true])),
            (2, ([1], [5], [true]))], {1, 2}, 1, 2, 1⟩ : State ℤ ℤ))).filter
          (fun x => x.2.1 == 1)).take 1 := by
  refine ⟨by decide, ?_⟩
  exact history_filter_recency
    ⟨[(0, ([1, 2], [10, 20], [true, true])), (1, ([1], [11], [true])),
      (2, ([1], [5], [true]))], {1, 2}, 1, 2, 1⟩ 1 (by decide)

/-! ### Claim theorems: state mutation and the heatmap -/

/-- C7: `record_obs(time, ids, pos, present)` fails with the assertion
error exactly when `time` is already a key of `frame_history`; a failing
call leaves the state untouched, and a succeeding call appends exactly the
one frame record keyed by `time` (and touches nothing else but the
registry). -/
theorem record_obs_contract {Pos R : Type} (s : State Pos R) (time : ℕ)
    (ids : List ℕ) (pos : List Pos) (present : List Bool) :
    ((∃ e, (record_obs s time ids pos present).1 = .error e) ↔
        time ∈ s.frame_history.map (·.1))
    ∧ (time ∈ s.frame_history.map (·.1) → (record_obs s time ids pos present).2 = s)
    ∧ (time ∉ s.frame_history.map (·.1) →
        (record_obs s time ids pos present).1 = .ok ()
        ∧ (record_obs s time ids pos present).2.frame_history
            = s.frame_history ++ [(time, (ids, pos, present))]) := by
  unfold record_obs
  by_cases h : time ∈ s.frame_history.map (·.1)
  · simp [h]
  · simp [h]

/-- C7 witness: recording time 1 into a history that already holds time 1
fails and preserves the state; recording time 2 succeeds and appends the
frame record. -/
theorem record_obs_contract_witness :
    (∃ e, (record_obs (⟨[(1, ([4], [0], [true]))], {4}, 1, 3, 8⟩ : State ℤ ℤ) 1 [5] [2] [true]).1 = .error e)
    ∧ (record_obs (⟨[(1, ([4], [0], [true]))], {4}, 1, 3, 8⟩ : State ℤ ℤ) 1 [5] [2] [true]).2
        = ⟨[(1, ([4], [0], [true]))], {4}, 1, 3, 8⟩
    ∧ (record_obs (⟨[(1, ([4], [0], [true]))], {4}, 1, 3, 8⟩ : State ℤ ℤ) 2 [5] [2] [true]).2.frame_history
        = [(1, ([4], [0], [true])), (2, ([5], [2], [true]))] := by
  refine ⟨(record_obs_contract _ 1 [5] [2] [true]).1.2 (by decide),
    (record_obs_contract _ 1 [5] [2] [true]).2.1 (by decide),
    ((record_obs_contract _ 2 [5] [2] [true]).2.2 (by decide)).2⟩

/-- C8: after any sequence of successful `record_obs` calls the registry is
the initial registry together with every id ever passed (whatever the
`present` flags were), and extending a call sequence by one more call never
shrinks the registry. -/
theorem registry_union_and_monotone {Pos R : Type} (s : State Pos R)
    (cs : List (Call Pos)) (h : recordAllOk s cs = true) :
    (recordAll s cs).all_ids = s.all_ids ∪ callIds cs
    ∧ ∀ c : Call Pos, (recordAll s cs).all_ids ⊆ (recordAll s (cs ++ [c])).all_ids := by
  refine ⟨recordAll_ids_union s cs h, fun c => ?_⟩
  rw [recordAll_append_one]
  exact recordStep_ids_mono _ c

/-- C8 witness: two successful recordings (the second with `present=false`)
collect both ids, and a third call only grows the registry. -/
theorem registry_union_and_monotone_witness :
    recordAllOk (⟨[], ∅, 1, 3, 8⟩ : State ℤ ℤ)
        [(0, [1], [5], [true]), (1, [2], [6], [false])] = true
    ∧ (recordAll (⟨[], ∅, 1, 3, 8⟩ : State ℤ ℤ)
        [(0, [1], [5], [true]), (1, [2], [6], [false])]).all_ids = {1, 2} := by
  have h : recordAllOk (⟨[], ∅, 1, 3, 8⟩ : State ℤ ℤ)
      [(0, [1], [5], [true]), (1, [2], [6], [false])] = true := by decide
  refine ⟨h, ?_⟩
  rw [(registry_union_and_monotone _ _ h).1]
  decide

/-- C10: `detect` leaves the detector state exactly as it found it — the
history, the registry and the three scalar parameters after the call are
those before it; only `record_obs` changes the state. -/
theorem detect_reads_only {Pos R : Type} [Inhabited Pos] [LinearOrder R]
    (dist : Pos → Pos → R) (net : List (Triple Pos) → List ℕ → List ℕ → List Pos)
    (s : State Pos R) (time : ℕ) (actualPoss : List Pos) (actualIds : List ℕ) :
    (detectS dist net s time actualPoss actualIds).2.frame_history = s.frame_history
    ∧ (detectS dist net s time actualPoss actualIds).2.all_ids = s.all_ids
    ∧ (detectS dist net s time actualPoss actualIds).2.dist_thresh = s.dist_thresh
    ∧ (detectS dist net s time actualPoss actualIds).2.min_hist_count = s.min_hist_count
    ∧ (detectS dist net s time actualPoss actualIds).2.max_hist_count = s.max_hist_count :=
  ⟨rfl, rfl, rfl, rfl, rfl⟩

/-- C6 (code bug): `make_voe_heatmap` on an absent violation list does
yield the all-false buffer, but a `PresenceViolation` in the list is not a
null effect — its `fill_heatmap` body is `pass`, so the running buffer is
replaced by Python `None` (the fold returns `None`, not a buffer), and a
`PositionViolation` processed after it raises `TypeError`. -/
theorem make_voe_heatmap_presence_clobbers :
    make_voe_heatmap (none : Option (List (Violation ℤ))) [[1, 2], [3, 4]]
        = .ok (some [[false, false], [false, false]])
    ∧ make_voe_heatmap (some [Violation.presence 1 (0 : ℤ)]) [[1, 2], [3, 4]]
        = .ok none
    ∧ make_voe_heatmap (some [Violation.presence 1 (0 : ℤ), Violation.position 2 0 0]) [[2]]
        = .error "TypeError" := by
  refine ⟨rfl, rfl, rfl⟩

/-- C3: whenever the filtered history is empty — in particular whenever no
observation was ever recorded — `detect` answers `none` without consulting
the predictor, and in every other state it calls the predictor exactly
once. -/
theorem detect_empty_short_circuit {Pos R : Type} [Inhabited Pos] [LinearOrder R]
    (dist : Pos → Pos → R) (net : List (Triple Pos) → List ℕ → List ℕ → List Pos)
    (s : State Pos R) (time : ℕ) (actualPoss : List Pos) (actualIds : List ℕ) :
    (s.frame_history = [] → getInputs s = none)
    ∧ (getInputs s = none →
        detectCount dist net s time actualPoss actualIds = (none, 0))
    ∧ (getInputs s ≠ none →
        (detectCount dist net s time actualPoss actualIds).2 = 1) := by
  refine ⟨?_, ?_, ?_⟩
  · intro h
    simp [getInputs, getInputsRaw, filterInputs, h]
  · intro h
    simp [detectCount, predictCount, h]
  · intro h
    obtain ⟨tr, htr⟩ := Option.ne_none_iff_exists'.mp h
    simp [detectCount, predictCount, htr]

/-! ### Anatomy of `detect` -/

theorem registryList_nodup {Pos R : Type} (s : State Pos R) : (registryList s).Nodup :=
  List.Nodup.filter _ (List.nodup_range _)

theorem mem_registryList {Pos R : Type} (s : State Pos R) (i : ℕ) :
    i ∈ registryList s ↔ i ∈ s.all_ids := by
  unfold registryList
  rw [List.mem_filter, List.mem_range]
  constructor
  · exact fun h => of_decide_eq_true h.2
  · intro h
    exact ⟨Nat.lt_succ_of_le (@Finset.le_sup ℕ ℕ _ _ s.all_ids id i h), decide_eq_true h⟩

theorem checkOne_objId {Pos R : Type} [Inhabited Pos] [LinearOrder R]
    (dist : Pos → Pos → R) (th : R) (poss : List Pos) (ids : List ℕ)
    (e : Pos × ℕ × Bool) (v : Violation Pos)
    (h : checkOne dist th poss ids e = some v) : v.objId = e.2.1 := by
  unfold checkOne at h
  split at h
  · exact absurd h (by simp)
  · split at h
    · split at h
      · injection h with h2
        rw [← h2]
        rfl
      · exact absurd h (by simp)
    · injection h with h2
      rw [← h2]
      rfl

theorem isPositionFor_objId {Pos : Type} (i : ℕ) (v : Violation Pos)
    (h : v.isPositionFor i = true) : v.objId = i := by
  cases v with
  | position j a b =>
    simp only [Violation.isPositionFor, beq_iff_eq] at h
    exact h
  | presence j a => exact absurd h (by simp [Violation.isPositionFor])

theorem isPresenceFor_objId {Pos : Type} (i : ℕ) (v : Violation Pos)
    (h : v.isPresenceFor i = true) : v.objId = i := by
  cases v with
  | position j a b => exact absurd h (by simp [Violation.isPresenceFor])
  | presence j a =>
    simp only [Violation.isPresenceFor, beq_iff_eq] at h
    exact h

theorem countP_key_single {α : Type} (key : α → ℕ) (i : ℕ) :
    ∀ (l : List α), (l.map key).Nodup →
      ∀ (q : α → Bool), (∀ a ∈ l, q a = true → key a = i) →
      ∀ a0 ∈ l, key a0 = i → l.countP q = if q a0 then 1 else 0 := by
  intro l
  induction l with
  | nil =>
    intro _ _ _ a0 h
    exact absurd h (List.not_mem_nil a0)
  | cons b l ih =>
    intro hnd q hq a0 ha0 hk
    rw [List.map_cons, List.nodup_cons] at hnd
    rw [List.countP_cons]
    rcases List.mem_cons.mp ha0 with h | h
    · subst h
      have hzero : l.countP q = 0 := by
        rw [List.countP_eq_zero]
        intro a ha hqa
        have h1 : key a = i := hq a (List.mem_cons_of_mem _ ha) hqa
        apply hnd.1
        rw [hk, ← h1]
        exact List.mem_map_of_mem key ha
      rw [hzero, Nat.zero_add]
    · have hkb : q b = false := by
        by_contra hqb
        rw [Bool.not_eq_false] at hqb
        have h1 : key b = i := hq b (List.mem_cons_self b l) hqb
        apply hnd.1
        rw [h1, ← hk]
        exact List.mem_map_of_mem key h
      rw [hkb]
      simp only [Bool.false_eq_true, if_false, Nat.add_zero]
      exact ih hnd.2 q (fun a ha => hq a (List.mem_cons_of_mem _ ha)) a0 h hk

theorem get_zip_fin {α β : Type} (l1 : List α) (l2 : List β) (k : ℕ)
    (h : k < (l1.zip l2).length) (h1 : k < l1.length) (h2 : k < l2.length) :
    (l1.zip l2).get ⟨k, h⟩ = (l1.get ⟨k, h1⟩, l2.get ⟨k, h2⟩) := by
  rw [List.get_eq_getElem, List.get_eq_getElem, List.get_eq_getElem]
  exact List.getElem_zip

theorem get_map_fin {α β : Type} (f : α → β) (l : List α) (k : ℕ)
    (hm : k < (l.map f).length) (h : k < l.length) :
    (l.map f).get ⟨k, hm⟩ = f (l.get ⟨k, h⟩) := by
  rw [List.get_eq_getElem, List.get_eq_getElem]
  exact List.getElem_map f

theorem getD_eq_get_fin {α : Type} (l : List α) (d : α) (k : ℕ) (h : k < l.length) :
    l.getD k d = l.get ⟨k, h⟩ := by
  rw [List.get_eq_getElem]
  exact List.getD_eq_getElem l d h

theorem checkOne_true_mem {Pos R : Type} [Inhabited Pos] [LinearOrder R]
    (dist : Pos → Pos → R) (th : R) (poss : List Pos) (ids : List ℕ)
    (pp : Pos) (i : ℕ) (hact : i ∈ ids) :
    checkOne dist th poss ids (pp, i, true)
      = if dist (poss.getD (ids.indexOf i) default) pp > th
        then some (.position i pp (poss.getD (ids.indexOf i) default))
        else none := by
  unfold checkOne
  rw [if_neg (by simp), if_pos (show (pp, i, true).2.1 ∈ ids from hact)]

theorem checkOne_true_absent {Pos R : Type} [Inhabited Pos] [LinearOrder R]
    (dist : Pos → Pos → R) (th : R) (poss : List Pos) (ids : List ℕ)
    (pp : Pos) (i : ℕ) (habs : i ∉ ids) :
    checkOne dist th poss ids (pp, i, true) = some (.presence i pp) := by
  unfold checkOne
  rw [if_neg (by simp), if_neg (show ¬((pp, i, true).2.1 ∈ ids) from habs)]

theorem checkOne_false_mask {Pos R : Type} [Inhabited Pos] [LinearOrder R]
    (dist : Pos → Pos → R) (th : R) (poss : List Pos) (ids : List ℕ)
    (pp : Pos) (i : ℕ) :
    checkOne dist th poss ids (pp, i, false) = none := by
  unfold checkOne
  rw [if_pos rfl]

theorem detect_eq_of_inputs {Pos R : Type} [Inhabited Pos] [LinearOrder R]
    (dist : Pos → Pos → R) (net : List (Triple Pos) → List ℕ → List ℕ → List Pos)
    (s : State Pos R) (time : ℕ) (poss : List Pos) (ids : List ℕ)
    (tr : List (Triple Pos)) (hin : getInputs s = some tr) :
    detect dist net s time poss ids
      = some ((zip3 (net tr ((registryList s).map fun _ => time) (registryList s))
          (registryList s)
          ((registryList s).map (fun i => decide (i ∈ tr.map (·.2.1))))).filterMap
            (checkOne dist s.dist_thresh poss ids)) := by
  unfold detect detectCount predictCount getTargets
  rw [hin]

/-- The one entry of the prediction/query/mask zip whose id is `i`. -/
theorem detect_countP_at {Pos R : Type} [Inhabited Pos] [LinearOrder R]
    (dist : Pos → Pos → R) (net : List (Triple Pos) → List ℕ → List ℕ → List Pos)
    (s : State Pos R) (time : ℕ) (poss : List Pos) (ids : List ℕ)
    (tr : List (Triple Pos)) (vs : List (Violation Pos))
    (hin : getInputs s = some tr)
    (hdet : detect dist net s time poss ids = some vs)
    (hlen : (net tr ((registryList s).map fun _ => time) (registryList s)).length
      = (registryList s).length)
    (i j : ℕ) (hj : j < (registryList s).length)
    (hij : (registryList s).get ⟨j, hj⟩ = i)
    (p : Violation Pos → Bool) (hp : ∀ v, p v = true → v.objId = i) :
    vs.countP p
      = if ((checkOne dist s.dist_thresh poss ids
            ((net tr ((registryList s).map fun _ => time) (registryList s)).getD j
                default,
              i, decide (i ∈ tr.map (·.2.1)))).map p).getD false = true
        then 1 else 0 := by
  have hvs := detect_eq_of_inputs dist net s time poss ids tr hin
  rw [hdet] at hvs
  injection hvs with hvs
  subst hvs
  rw [List.countP_filterMap]
  have hm : ((registryList s).map (fun i => decide (i ∈ tr.map (·.2.1)))).length
      = (registryList s).length := List.length_map _ _
  have hq : ((registryList s).zip
      ((registryList s).map (fun i => decide (i ∈ tr.map (·.2.1))))).length
      = (registryList s).length := by
    rw [List.length_zip, hm, min_self]
  have hL : (zip3 (net tr ((registryList s).map fun _ => time) (registryList s))
      (registryList s)
      ((registryList s).map (fun i => decide (i ∈ tr.map (·.2.1))))).length
      = (registryList s).length := by
    unfold zip3
    rw [List.length_zip, hq, hlen, min_self]
  have hkey : (zip3 (net tr ((registryList s).map fun _ => time) (registryList s))
      (registryList s)
      ((registryList s).map (fun i => decide (i ∈ tr.map (·.2.1))))).map
        (fun x => x.2.1) = registryList s := by
    unfold zip3
    have h1 : (fun x : Pos × ℕ × Bool => x.2.1) = Prod.fst ∘ Prod.snd := rfl
    rw [h1, ← List.map_map, List.map_snd_zip _ _ (le_of_eq (hq.trans hlen.symm)),
      List.map_fst_zip _ _ (le_of_eq hm.symm)]
  have hjL : j < (zip3 (net tr ((registryList s).map fun _ => time) (registryList s))
      (registryList s)
      ((registryList s).map (fun i => decide (i ∈ tr.map (·.2.1))))).length :=
    hL ▸ hj
  have hjn : j < (net tr ((registryList s).map fun _ => time) (registryList s)).length :=
    hlen ▸ hj
  have hjq : j < ((registryList s).zip
      ((registryList s).map (fun i => decide (i ∈ tr.map (·.2.1))))).length :=
    hq ▸ hj
  have hjm : j < ((registryList s).map (fun i => decide (i ∈ tr.map (·.2.1)))).length :=
    hm ▸ hj
  have ha0 : (zip3 (net tr ((registryList s).map fun _ => time) (registryList s))
      (registryList s)
      ((registryList s).map (fun i => decide (i ∈ tr.map (·.2.1))))).get ⟨j, hjL⟩
      = ((net tr ((registryList s).map fun _ => time) (registryList s)).getD j default,
          i, decide (i ∈ tr.map (·.2.1))) := by
    unfold zip3
    rw [get_zip_fin _ _ j hjL hjn hjq, get_zip_fin _ _ j hjq hj hjm,
      get_map_fin _ _ j hjm hj, hij, getD_eq_get_fin _ default j hjn]
  have hqkey : ∀ a ∈ (zip3 (net tr ((registryList s).map fun _ => time) (registryList s))
      (registryList s)
      ((registryList s).map (fun i => decide (i ∈ tr.map (·.2.1))))),
      (Option.map p (checkOne dist s.dist_thresh poss ids a)).getD false = true
        → a.2.1 = i := by
    intro a _ hqa
    obtain ⟨b, hb, hpb⟩ : ∃ b, checkOne dist s.dist_thresh poss ids a = some b
        ∧ p b = true := by
      cases hchk : checkOne dist s.dist_thresh poss ids a with
      | none =>
        rw [hchk] at hqa
        exact absurd hqa (by simp)
      | some b =>
        rw [hchk] at hqa
        exact ⟨b, rfl, by simpa using hqa⟩
    have h1 := checkOne_objId dist s.dist_thresh poss ids a b hb
    rw [← h1]
    exact hp b hpb
  have hcount := countP_key_single (fun x : Pos × ℕ × Bool => x.2.1) i
    (zip3 (net tr ((registryList s).map fun _ => time) (registryList s))
      (registryList s)
      ((registryList s).map (fun i => decide (i ∈ tr.map (·.2.1)))))
    (by rw [hkey]; exact registryList_nodup s)
    (fun a => (Option.map p (checkOne dist s.dist_thresh poss ids a)).getD false)
    hqkey
    ((zip3 (net tr ((registryList s).map fun _ => time) (registryList s))
      (registryList s)
      ((registryList s).map (fun i => decide (i ∈ tr.map (·.2.1))))).get ⟨j, hjL⟩)
    (List.get_mem _ j hjL)
    (by rw [ha0])
  rw [hcount, ha0]

/-- C3 witness: on a freshly constructed state nothing was recorded, so
`detect` returns the undeterminable outcome with zero predictor calls; on a
state with one eligible observation the predictor is called once. -/
theorem detect_empty_short_circuit_witness :
    detectCount (fun a b => b - a) (fun _ ts _ => ts.map fun _ => 0)
        (⟨[], ∅, 1, 3, 8⟩ : State ℤ ℤ) 7 [] [] = (none, 0)
    ∧ (detectCount (fun a b => b - a) (fun _ ts _ => ts.map fun _ => 0)
        (⟨[(0, ([4], [2], [true]))], {4}, 1, 1, 8⟩ : State ℤ ℤ) 7 [] []).2 = 1 := by
  refine ⟨?_, ?_⟩
  · exact (detect_empty_short_circuit (fun a b => b - a) (fun _ ts _ => ts.map fun _ => 0)
      ⟨[], ∅, 1, 3, 8⟩ 7 [] []).2.1
      ((detect_empty_short_circuit (fun a b => b - a) (fun _ ts _ => ts.map fun _ => 0)
        ⟨[], ∅, 1, 3, 8⟩ 7 [] []).1 rfl)
  · exact (detect_empty_short_circuit (fun a b => b - a) (fun _ ts _ => ts.map fun _ => 0)
      ⟨[(0, ([4], [2], [true]))], {4}, 1, 1, 8⟩ 7 [] []).2.2 (by decide)

/-! ### Claim theorems: the violation detector -/

/-- C4: for a query id whose relevance mask is true and which occurs among
the actual ids, `detect` emits a `PositionViolation` for it exactly when
the distance between actual and predicted position strictly exceeds
`dist_thresh`; at exact equality nothing is emitted. -/
theorem detect_position_threshold {Pos R : Type} [Inhabited Pos] [LinearOrder R]
    (dist : Pos → Pos → R) (net : List (Triple Pos) → List ℕ → List ℕ → List Pos)
    (s : State Pos R) (time : ℕ) (poss : List Pos) (ids : List ℕ)
    (tr : List (Triple Pos)) (vs : List (Violation Pos))
    (hin : getInputs s = some tr)
    (hdet : detect dist net s time poss ids = some vs)
    (hlen : (net tr ((registryList s).map fun _ => time) (registryList s)).length
      = (registryList s).length)
    (i j : ℕ) (hj : j < (registryList s).length)
    (hij : (registryList s).get ⟨j, hj⟩ = i)
    (hrel : i ∈ tr.map (·.2.1)) (hact : i ∈ ids) :
    (vs.countP (Violation.isPositionFor i)
      = if dist (poss.getD (ids.indexOf i) default)
            ((net tr ((registryList s).map fun _ => time) (registryList s)).getD j
              default)
          > s.dist_thresh
        then 1 else 0)
    ∧ (dist (poss.getD (ids.indexOf i) default)
          ((net tr ((registryList s).map fun _ => time) (registryList s)).getD j
            default)
        = s.dist_thresh →
      vs.countP (Violation.isPositionFor i) = 0) := by
  have hfirst : vs.countP (Violation.isPositionFor i)
      = if dist (poss.getD (ids.indexOf i) default)
            ((net tr ((registryList s).map fun _ => time) (registryList s)).getD j
              default)
          > s.dist_thresh
        then 1 else 0 := by
    rw [detect_countP_at dist net s time poss ids tr vs hin hdet hlen i j hj hij
      (Violation.isPositionFor i) (isPositionFor_objId i),
      decide_eq_true hrel, checkOne_true_mem dist s.dist_thresh poss ids _ i hact]
    by_cases hd : dist (poss.getD (ids.indexOf i) default)
        ((net tr ((registryList s).map fun _ => time) (registryList s)).getD j default)
        > s.dist_thresh
    · rw [if_pos hd, if_pos hd]
      simp [Violation.isPositionFor]
    · rw [if_neg hd, if_neg hd]
      simp
  refine ⟨hfirst, fun heq => ?_⟩
  rw [hfirst, if_neg (by rw [heq]; exact lt_irrefl _)]

/-- C4 witness: one eligible object predicted at 0, observed at 9 with
threshold 1, yields exactly one `PositionViolation`. -/
theorem detect_position_threshold_witness :
    List.countP (Violation.isPositionFor 1) [Violation.position 1 (0 : ℤ) 9] = 1 :=
  ((detect_position_threshold (fun a b : ℤ => if a ≤ b then b - a else a - b)
      (fun _ _ _ => [0])
      ⟨[(0, ([1], [5], [true])), (1, ([1], [5], [true]))], {1}, 1, 1, 8⟩
      2 [9] [1] [(1, 1, 5), (0, 1, 5)] [Violation.position 1 0 9]
      (by decide) (by decide) (by decide) 1 0 (by decide) (by decide)
      (by decide) (by decide)).1).trans (by decide)

/-- C5: the query set contains every id of the registry; an id backed by
eligible training history but missing from the actual ids receives exactly
one `PresenceViolation` and no `PositionViolation`, and an id without
eligible training history (relevance mask false) receives no violation of
any kind. -/
theorem detect_presence_exactly_one {Pos R : Type} [Inhabited Pos] [LinearOrder R]
    (dist : Pos → Pos → R) (net : List (Triple Pos) → List ℕ → List ℕ → List Pos)
    (s : State Pos R) (time : ℕ) (poss : List Pos) (ids : List ℕ)
    (tr : List (Triple Pos)) (vs : List (Violation Pos))
    (hin : getInputs s = some tr)
    (hdet : detect dist net s time poss ids = some vs)
    (hlen : (net tr ((registryList s).map fun _ => time) (registryList s)).length
      = (registryList s).length) :
    (∀ i ∈ s.all_ids, i ∈ registryList s)
    ∧ (∀ i, i ∈ registryList s →
        (i ∈ tr.map (·.2.1) → i ∉ ids →
          vs.countP (Violation.isPresenceFor i) = 1
          ∧ vs.countP (Violation.isPositionFor i) = 0)
        ∧ (i ∉ tr.map (·.2.1) →
          vs.countP (fun v => v.objId == i) = 0)) := by
  refine ⟨fun i hi => (mem_registryList s i).mpr hi, fun i hmem => ?_⟩
  obtain ⟨⟨j, hj⟩, hij⟩ := List.mem_iff_get.mp hmem
  refine ⟨fun hrel habs => ⟨?_, ?_⟩, fun hnrel => ?_⟩
  · rw [detect_countP_at dist net s time poss ids tr vs hin hdet hlen i j hj hij
      (Violation.isPresenceFor i) (isPresenceFor_objId i),
      decide_eq_true hrel, checkOne_true_absent dist s.dist_thresh poss ids _ i habs]
    simp [Violation.isPresenceFor]
  · rw [detect_countP_at dist net s time poss ids tr vs hin hdet hlen i j hj hij
      (Violation.isPositionFor i) (isPositionFor_objId i),
      decide_eq_true hrel, checkOne_true_absent dist s.dist_thresh poss ids _ i habs]
    simp [Violation.isPositionFor]
  · rw [detect_countP_at dist net s time poss ids tr vs hin hdet hlen i j hj hij
      (fun v => v.objId == i) (fun v hv => by simpa using hv),
      decide_eq_false hnrel, checkOne_false_mask dist s.dist_thresh poss ids _ i]
    simp

/-- C5 witness: id 1 (eligible, absent from the frame) gets exactly one
`PresenceViolation` and no `PositionViolation`; id 2 (only one present
observation, below `min_hist_count = 2`) gets nothing. -/
theorem detect_presence_exactly_one_witness :
    List.countP (Violation.isPresenceFor 1) [Violation.presence 1 (0 : ℤ)] = 1
    ∧ List.countP (Violation.isPositionFor 1) [Violation.presence 1 (0 : ℤ)] = 0
    ∧ List.countP (fun v => v.objId == 2) [Violation.presence 1 (0 : ℤ)] = 0 := by
  have h := detect_presence_exactly_one
    (fun a b : ℤ => if a ≤ b then b - a else a - b)
    (fun _ ts _ => ts.map (fun _ => 0))
    ⟨[(0, ([1, 2], [5, 6], [true, true])), (1, ([1], [5], [true]))], {1, 2}, 1, 2, 8⟩
    2 [] [] [(1, 1, 5), (0, 1, 5)] [Violation.presence 1 0]
    (by decide) (by decide) (by decide)
  exact ⟨((h.2 1 (by decide)).1 (by decide) (by decide)).1,
    ((h.2 1 (by decide)).1 (by decide) (by decide)).2,
    (h.2 2 (by decide)).2 (by decide)⟩

/-- C9 counterexample: a predictor answering one position for a two-id
query is not rejected — `detect` zips the short prediction list against
the queries, silently compares the one surviving pair (emitting a
violation for id 1) and silently drops the query for id 2. -/
theorem predictor_mismatch_not_rejected :
    detect (fun a b : ℤ => if a ≤ b then b - a else a - b) (fun _ _ _ => [0])
        ⟨[(0, ([1, 2], [5, 6], [true, true])), (1, ([1, 2], [5, 6], [true, true]))],
          {1, 2}, 1, 1, 8⟩ 2 [9] [1]
      = some [Violation.position 1 0 9] := by decide

/-- C9 amended: neither `predict` nor `detect` validates the predictor's
output length; the predictions are zipped against the query ids and masks,
truncating to the shortest sequence, and the call completes normally with
at most that many violations. -/
theorem detect_no_length_validation {Pos R : Type} [Inhabited Pos] [LinearOrder R]
    (dist : Pos → Pos → R) (net : List (Triple Pos) → List ℕ → List ℕ → List Pos)
    (s : State Pos R) (time : ℕ) (poss : List Pos) (ids : List ℕ)
    (tr : List (Triple Pos)) (hin : getInputs s = some tr) :
    ∃ vs, detect dist net s time poss ids = some vs
      ∧ vs.length
          ≤ (net tr ((registryList s).map fun _ => time) (registryList s)).length
            ⊓ (registryList s).length := by
  refine ⟨_, detect_eq_of_inputs dist net s time poss ids tr hin, ?_⟩
  have h1 := List.length_filterMap_le (checkOne dist s.dist_thresh poss ids)
    (zip3 (net tr ((registryList s).map fun _ => time) (registryList s))
      (registryList s)
      ((registryList s).map (fun i => decide (i ∈ tr.map (·.2.1)))))
  have h2 : (zip3 (net tr ((registryList s).map fun _ => time) (registryList s))
      (registryList s)
      ((registryList s).map (fun i => decide (i ∈ tr.map (·.2.1))))).length
      = (net tr ((registryList s).map fun _ => time) (registryList s)).length
        ⊓ ((registryList s).length ⊓ (registryList s).length) := by
    unfold zip3
    rw [List.length_zip, List.length_zip, List.length_map]
  rw [h2, inf_idem] at h1
  exact h1

/-- C9 amended witness: on a two-id registry with a one-position predictor
the detector returns a violation list of length at most `1 ⊓ 2`. -/
theorem detect_no_length_validation_witness :
    getInputs (⟨[(0, ([1, 2], [5, 6], [true, true])), (1, ([1, 2], [5, 6], [true, true]))],
          {1, 2}, 1, 1, 8⟩ : State ℤ ℤ)
      = some [(1, 1, 5), (1, 2, 6), (0, 1, 5), (0, 2, 6)]
    ∧ ∃ vs, detect (fun a b : ℤ => if a ≤ b then b - a else a - b) (fun _ _ _ => [0])
        ⟨[(0, ([1, 2], [5, 6], [true, true])), (1, ([1, 2], [5, 6], [true, true]))],
          {1, 2}, 1, 1, 8⟩ 2 [9] [1]
      = some vs
      ∧ vs.length
          ≤ ((fun (_ : List (Triple ℤ)) (_ _ : List ℕ) => [(0 : ℤ)])
              [(1, 1, 5), (1, 2, 6), (0, 1, 5), (0, 2, 6)]
              ((registryList (⟨[(0, ([1, 2], [5, 6], [true, true])),
                  (1, ([1, 2], [5, 6], [true, true]))], {1, 2}, 1, 1, 8⟩ : State ℤ ℤ)).map
                  fun _ => 2)
              (registryList (⟨[(0, ([1, 2], [5, 6], [true, true])),
                  (1, ([1, 2], [5, 6], [true, true]))], {1, 2}, 1, 1, 8⟩ : State ℤ ℤ))).length
            ⊓ (registryList (⟨[(0, ([1, 2], [5, 6], [true, true])),
                  (1, ([1, 2], [5, 6], [true, true]))], {1, 2}, 1, 1, 8⟩ : State ℤ ℤ)).length :=
  ⟨by decide,
    detect_no_length_validation (fun a b : ℤ => if a ≤ b then b - a else a - b)
      (fun _ _ _ => [0])
      ⟨[(0, ([1, 2], [5, 6], [true, true])), (1, ([1, 2], [5, 6], [true, true]))],
        {1, 2}, 1, 1, 8⟩ 2 [9] [1]
      [(1, 1, 5), (1, 2, 6), (0, 1, 5), (0, 2, 6)] (by decide)⟩

end FwVOE
